import Mathlib

/-!
# Verification of the crypto-dashboard statistics engine

A shallow embedding, in Lean 4, of the data/statistics core of the
`crypto-dashboard` repository:

* the per-symbol candle buffer with full vs. incremental refetch and
  merge/trim reconciliation (`src/app/hooks/useCryptoPrices.ts`,
  `fetch1mCandles`);
* the sliding-window statistics engine with memoised window computations
  (`calculateWindowRange`, `calculateMaxRangeForWindow`,
  `calculateMaxRanges` in the price utilities module);
* the window-range cache keying and pruning
  (`getWindowRangeCacheKey`, `pruneWindowRangeCache`);
* the threshold evaluator (`getFilledDots`, `getNotificationMetPerSymbol`);
* the live-price polling backoff state machine (`fetchPrices`).

Modelling conventions:

* JavaScript numbers are modelled as `ℚ` (prices, ranges, thresholds) and
  `ℕ` (epoch-millisecond timestamps, counts, window sizes).  The programs
  under study only perform exact decimal arithmetic on the values the
  claims are about, so rationals are a faithful model there.
* Decimal strings are parsed by an explicit executable model of JS
  `parseFloat` restricted to plain decimal literals (optional sign,
  integer digits, optional fraction); `none` models `NaN`.
* JS `Map`s keyed by strings are modelled as association lists with
  `List.lookup` semantics (first binding wins, insertion preserves order).
* Mutation of a cache that is threaded through a computation is modelled
  by explicit state passing: each function returns its result together
  with the updated cache.
-/

section RatReducible

/- The library marks the rational-number operations irreducible; concrete
evaluation of the embedded functions on sample candles (`decide`) needs
them unfolded. -/
attribute [local semireducible] Rat.add Rat.mul Rat.sub Rat.inv

namespace Crypto

/-! ## Decimal-string parsing (model of JS `parseFloat` / `parseInt`) -/

/-- Numeric value of a decimal digit character (`'0'` ↦ 0, …, `'9'` ↦ 9). -/
def charDigit (c : Char) : ℕ := c.toNat - 48

/-- Value of a big-endian list of decimal digit characters. -/
def digitsVal (l : List Char) : ℕ :=
  l.foldl (fun a c => 10 * a + charDigit c) 0

/--
Model of JS `parseFloat` on plain decimal literals: optional sign, then
decimal digits with an optional fractional part.  `none` models `NaN`
(no leading numeric literal at all).  Exponent notation and special
values are not produced by the upstream data source and are not modelled.
-/
def parseFloat? (s : String) : Option ℚ :=
  let signAndRest : ℚ × List Char :=
    match s.data with
    | '-' :: r => (-1, r)
    | '+' :: r => (1, r)
    | r => (1, r)
  let sign := signAndRest.1
  let rest := signAndRest.2
  let intPart := rest.takeWhile (·.isDigit)
  let afterInt := rest.dropWhile (·.isDigit)
  let fracPart :=
    match afterInt with
    | '.' :: r => r.takeWhile (·.isDigit)
    | _ => []
  if intPart.isEmpty && fracPart.isEmpty then none
  else
    some (sign * ((digitsVal intPart : ℚ) +
      (digitsVal fracPart : ℚ) / (10 : ℚ) ^ fracPart.length))

/--
Total model of JS `parseFloat` used where the source performs arithmetic
without an `isNaN` guard (the statistics engine); unparseable strings map
to `0` there — such strings never occur in upstream candle data, and the
claims about those functions never depend on this default.
-/
def parseFloat (s : String) : ℚ := (parseFloat? s).getD 0

/--
Model of JS `parseInt(s, 10)` for the nonnegative integers appearing in
cache keys: value of the longest leading run of decimal digits, `none`
(`NaN`) when there is none.
-/
def parseIntDec (s : String) : Option ℕ :=
  let ds := s.data.takeWhile (·.isDigit)
  if ds.isEmpty then none else some (digitsVal ds)

/-- Big-endian decimal digit characters of a positive number, with
explicit structural fuel (`fuel ≥ n` suffices). -/
def natToCharsAux : ℕ → ℕ → List Char
  | 0, _ => []
  | fuel + 1, n =>
      if n = 0 then []
      else natToCharsAux fuel (n / 10) ++ [Nat.digitChar (n % 10)]

/-- Decimal rendering of a natural number as a character list (model of JS
number-to-string conversion on nonnegative integers). -/
def natToChars (n : ℕ) : List Char :=
  if n = 0 then ['0'] else natToCharsAux n n

/-- Decimal rendering of a natural number as a string. -/
def natToString (n : ℕ) : String := ⟨natToChars n⟩

/-- Model of JS `String.prototype.split` with a single-character
separator: auxiliary accumulator version. -/
def splitOnCharAux (sep : Char) : List Char → List Char → List (List Char)
  | [], acc => [acc.reverse]
  | x :: xs, acc =>
      if x = sep then acc.reverse :: splitOnCharAux sep xs []
      else splitOnCharAux sep xs (x :: acc)

/-- Model of JS `s.split(sep)` for a one-character separator. -/
def splitOnChar (sep : Char) (s : String) : List String :=
  (splitOnCharAux sep s.data []).map List.asString

/-! ## Data model -/

/-- One OHLCV candle, as served by the upstream kline endpoint
(`Candle` in the API client module): epoch-millisecond open time, price
fields kept as the original decimal strings. -/
structure Candle where
  openTime : ℕ
  «open» : String
  high : String
  low : String
  close : String
  volume : String
  deriving DecidableEq, Repr

/-- Cached statistics of one window (`CachedWindowRange`): numeric
high/low/range and the volatility ratio. -/
structure CachedWindowRange where
  high : ℚ
  low : ℚ
  range : ℚ
  volatility : ℚ
  deriving DecidableEq, Repr

/-- Result record for one window size (`MaxRange`).  The optional numeric
fields of the TS interface are always populated by the producer
(`calculateMaxRangeForWindow` / the placeholder), so they are modelled as
total fields; the consumers' `?? 0` coalescing is then the identity. -/
structure MaxRange where
  windowSize : ℕ
  range : ℚ
  high : String
  low : String
  wma : ℚ
  avgAbsChange : ℚ
  wmaAbsChange : ℚ
  maxAbsChange : ℚ
  maxVolatility : ℚ
  wmaVolatility : ℚ
  deriving DecidableEq, Repr

/-- The window-range cache (`WindowRangeCache = Map<string,
CachedWindowRange>`), modelled as an association list with unique-key
`Map` semantics: lookup returns the first binding. -/
abbrev Cache := List (String × CachedWindowRange)

/-- Model of `Map.prototype.set`: replace the existing binding in place,
else append (JS `Map` preserves insertion order). -/
def cacheSet (m : Cache) (k : String) (v : CachedWindowRange) : Cache :=
  if (m.lookup k).isSome then
    m.map (fun kv => if kv.1 = k then (k, v) else kv)
  else m ++ [(k, v)]

/-! ## Cache keys and pruning -/

/-- `getWindowRangeCacheKey` — the template literal
`` `${windowSize}-${firstCandleOpenTime}` ``. -/
def getWindowRangeCacheKey (windowSize : ℕ) (firstCandleOpenTime : ℕ) : String :=
  natToString windowSize ++ "-" ++ natToString firstCandleOpenTime

/--
`pruneWindowRangeCache`: if the candle array is empty, clear the cache;
otherwise delete every entry whose key's second `-`-separated component
does not `parseInt` to an `openTime` present in the candle array
(a `NaN` parse is never in the set, hence deleted).
-/
def pruneWindowRangeCache (cache : Cache) (candles : List Candle) : Cache :=
  if candles.length = 0 then []
  else
    let validOpenTimes := candles.map (·.openTime)
    cache.filter (fun kv =>
      match parseIntDec ((splitOnChar '-' kv.1).getD 1 "") with
      | some openTime => validOpenTimes.contains openTime
      | none => false)

/-! ## Sliding-window statistics engine -/

/-- Model of JS `Math.max(...xs)` on a nonempty argument list (the empty
case, `-Infinity` in JS, is never exercised: every window scanned has at
least one candle). -/
def jsMax : List ℚ → ℚ
  | [] => 0
  | x :: xs => xs.foldl max x

/-- Model of JS `Math.min(...xs)` on a nonempty argument list. -/
def jsMin : List ℚ → ℚ
  | [] => 0
  | x :: xs => xs.foldl min x

/--
`calculateWindowRange`: high, low, range and volatility of a single
window of candles.  Volatility is
`Σ((high − low)·2 − |close − open|) / range` when `range > 0`, else `0`.
-/
def calculateWindowRange (candles : List Candle) : CachedWindowRange :=
  let highs := candles.map (fun c => parseFloat c.high)
  let lows := candles.map (fun c => parseFloat c.low)
  let high := jsMax highs
  let low := jsMin lows
  let range := high - low
  let sumVol := candles.foldl (fun acc c =>
    acc + ((parseFloat c.high - parseFloat c.low) * 2 -
      |parseFloat c.close - parseFloat c.«open»|)) 0
  let volatility := if range > 0 then sumVol / range else 0
  { high := high, low := low, range := range, volatility := volatility }

/-- Placeholder used by JS index accesses on a window slice
(`windowCandles[0]`, `windowCandles[windowSize - 1]`); every access in
the scan is in bounds, so the placeholder value is never observed. -/
def defaultCandle : Candle := ⟨0, "", "", "", "", ""⟩

/-- `windowCandles[j]` — JS array indexing inside the scan loop. -/
def candleAt (wc : List Candle) (j : ℕ) : Candle := wc.getD j defaultCandle

/-- `candles.slice(i, i + windowSize)` — the window of candles scanned
at position `i`. -/
def windowSlice (candles : List Candle) (windowSize i : ℕ) : List Candle :=
  (candles.drop i).take windowSize

/-- Rendering of a number as a string (JS `Number.prototype.toString`).
Only reachable through the `||` fallbacks of the max-tracking code, which
fire only when a candle stores an empty price string or no candle attains
the window maximum — impossible for well-formed candle data; the exact
rendering is therefore immaterial to every claim. -/
def ratToString (q : ℚ) : String := toString q

/-- `highCandle?.high || maxHigh.toString()` — resolve the window high
back to the original candle string (empty strings are falsy in JS). -/
def resolveHighStr (wc : List Candle) (maxHigh : ℚ) : String :=
  match wc.find? (fun c => parseFloat c.high == maxHigh) with
  | some c => if c.high = "" then ratToString maxHigh else c.high
  | none => ratToString maxHigh

/-- `lowCandle?.low || maxLow.toString()` — resolve the window low back
to the original candle string. -/
def resolveLowStr (wc : List Candle) (maxLow : ℚ) : String :=
  match wc.find? (fun c => parseFloat c.low == maxLow) with
  | some c => if c.low = "" then ratToString maxLow else c.low
  | none => ratToString maxLow

/-- The accumulator of `calculateMaxRangeForWindow`'s scan loop: the
local mutable variables declared before the loop. -/
structure ScanState where
  maxRange : ℚ
  maxHigh : ℚ
  maxLow : ℚ
  maxHighStr : String
  maxLowStr : String
  weightedSum : ℚ
  weightSum : ℚ
  maxVolatility : ℚ
  weightedVolatilitySum : ℚ
  sumAbsChange : ℚ
  weightedAbsChangeSum : ℚ
  maxAbsChange : ℚ
  windowCount : ℕ
  deriving DecidableEq, Repr

/-- Initial scan state: zeros and empty strings. -/
def initState : ScanState := ⟨0, 0, 0, "", "", 0, 0, 0, 0, 0, 0, 0, 0⟩

/--
One iteration of `calculateMaxRangeForWindow`'s sliding loop at position
`i`: fetch the window statistics through the optional cache (compute and
store on a miss), track the maximum range and its original high/low
strings, and accumulate the weighted and change metrics.  The threaded
cache is returned alongside the updated accumulator.
-/
def stepWindow (candles : List Candle) (windowSize : ℕ)
    (acc : ScanState × Option Cache) (i : ℕ) : ScanState × Option Cache :=
  let st := acc.1
  let windowCandles := windowSlice candles windowSize i
  let firstCandleOpenTime := (candleAt windowCandles 0).openTime
  let cacheKey := getWindowRangeCacheKey windowSize firstCandleOpenTime
  let fetched : CachedWindowRange × Option Cache :=
    match acc.2 with
    | none => (calculateWindowRange windowCandles, none)
    | some m =>
        match m.lookup cacheKey with
        | some v => (v, some m)
        | none =>
            let v := calculateWindowRange windowCandles
            (v, some (cacheSet m cacheKey v))
  let windowRange := fetched.1
  let st₁ :=
    if windowRange.range > st.maxRange then
      { st with
        maxRange := windowRange.range
        maxHigh := windowRange.high
        maxLow := windowRange.low
        maxHighStr := resolveHighStr windowCandles windowRange.high
        maxLowStr := resolveLowStr windowCandles windowRange.low }
    else st
  let weight : ℚ := (i : ℚ) + 1
  let startOpen := parseFloat (candleAt windowCandles 0).«open»
  let endClose := parseFloat (candleAt windowCandles (windowSize - 1)).close
  let absChange := |endClose - startOpen|
  let st₂ :=
    { st₁ with
      weightedSum := st₁.weightedSum + windowRange.range * weight
      weightSum := st₁.weightSum + weight
      maxVolatility := max st₁.maxVolatility windowRange.volatility
      weightedVolatilitySum := st₁.weightedVolatilitySum + windowRange.volatility * weight
      sumAbsChange := st₁.sumAbsChange + absChange
      weightedAbsChangeSum := st₁.weightedAbsChangeSum + absChange * weight
      maxAbsChange := if absChange > st₁.maxAbsChange then absChange else st₁.maxAbsChange
      windowCount := st₁.windowCount + 1 }
  (st₂, fetched.2)

/--
`calculateMaxRangeForWindow`: `none` when the buffer has fewer than
`windowSize` candles; otherwise slide the window over positions
`0 … length − windowSize`, then assemble the `MaxRange` record from the
accumulated state.  The (optional) cache is threaded through and
returned.
-/
def calculateMaxRangeForWindow (candles : List Candle) (windowSize : ℕ)
    (cache : Option Cache) : Option MaxRange × Option Cache :=
  if candles.length < windowSize then (none, cache)
  else
    let scanned := (List.range (candles.length - windowSize + 1)).foldl
      (stepWindow candles windowSize) (initState, cache)
    let st := scanned.1
    let wma := if st.weightSum > 0 then st.weightedSum / st.weightSum else 0
    let wmaVolatility := if st.weightSum > 0 then st.weightedVolatilitySum / st.weightSum else 0
    let avgAbsChange := if st.windowCount > 0 then st.sumAbsChange / (st.windowCount : ℚ) else 0
    let wmaAbsChange := if st.weightSum > 0 then st.weightedAbsChangeSum / st.weightSum else 0
    (some { windowSize := windowSize, range := st.maxRange, high := st.maxHighStr,
            low := st.maxLowStr, wma := wma, avgAbsChange := avgAbsChange,
            wmaAbsChange := wmaAbsChange, maxAbsChange := st.maxAbsChange,
            maxVolatility := st.maxVolatility, wmaVolatility := wmaVolatility },
     scanned.2)

/-- The insufficient-data placeholder pushed by `calculateMaxRanges`. -/
def placeholderRange (windowSize : ℕ) : MaxRange :=
  ⟨windowSize, 0, "", "", 0, 0, 0, 0, 0, 0⟩

/-- The countdown loop of `calculateMaxRanges`: window sizes `n, n−1, …, 1`,
threading the optional cache left to right. -/
def calcMaxRangesAux (candles : List Candle) : ℕ → Option Cache → List MaxRange × Option Cache
  | 0, cache => ([], cache)
  | n + 1, cache =>
      let head := calculateMaxRangeForWindow candles (n + 1) cache
      let entry :=
        match head.1 with
        | some r => r
        | none => placeholderRange (n + 1)
      let rest := calcMaxRangesAux candles n head.2
      (entry :: rest.1, rest.2)

/-- `calculateMaxRanges`: one `MaxRange` per window size from
`maxWindowSize` down to `1` (placeholders where the buffer is too
short), with the optional cache threaded through the whole pass. -/
def calculateMaxRanges (candles : List Candle) (maxWindowSize : ℕ)
    (cache : Option Cache) : List MaxRange × Option Cache :=
  calcMaxRangesAux candles maxWindowSize cache

/--
Coherence of a cache with a candle buffer: every binding that any scan
position of any positive window size can look up holds exactly the
statistics of that window.  The empty cache is coherent, coherence is
preserved by the engine's own insertions (for buffers without duplicate
open times), and a coherent cache never changes a scan's outcome.
-/
def CacheCoherent (m : Cache) (candles : List Candle) : Prop :=
  ∀ w i, 1 ≤ w → i + w ≤ candles.length →
    ∀ v, m.lookup (getWindowRangeCacheKey w
        (candleAt (windowSlice candles w i) 0).openTime) = some v →
      v = calculateWindowRange (windowSlice candles w i)

/-! ## Threshold evaluator: dot scores -/

/-- `getFilledDots`: number of filled dots (0–4) from the
deviation/threshold ratio. -/
def getFilledDots (deviation : ℚ) (threshold : ℚ) : ℕ :=
  if threshold = 0 then 0
  else
    let ratio := deviation / threshold
    if ratio > 1 then 4
    else if ratio > 3/4 then 3
    else if ratio > 1/2 then 2
    else if ratio > 1/4 then 1
    else 0

/-! ## Price formatting -/

/-- Left-pad a digit list with `'0'` to the requested width. -/
def padLeftZeros (l : List Char) (n : ℕ) : List Char :=
  List.replicate (n - l.length) '0' ++ l

/-- Model of JS `Number.prototype.toFixed(prec)`: decimal rendering with
`prec` fractional digits, rounding ties away from zero. -/
def ratToFixed (q : ℚ) (prec : ℕ) : String :=
  let scaled := |q| * 10 ^ prec
  let n := ⌊scaled + 1/2⌋.toNat
  let intPart := n / 10 ^ prec
  let fracPart := n % 10 ^ prec
  let sign := if q < 0 ∧ n ≠ 0 then "-" else ""
  if prec = 0 then sign ++ natToString intPart
  else sign ++ natToString intPart ++ "." ++ (padLeftZeros (natToChars fracPart) prec).asString

/-- Numeric core of `formatPrice`: fewer decimals for higher prices. -/
def formatPriceQ (numPrice : ℚ) : String :=
  if numPrice ≥ 1000 then ratToFixed numPrice 2
  else if numPrice ≥ 1 then ratToFixed numPrice 4
  else ratToFixed numPrice 6

/-- `formatPrice`: parse the price string and format by magnitude. -/
def formatPrice (price : String) : String := formatPriceQ (parseFloat price)

/-- `formatWMA`: `'—'` for a zero WMA, else the price-formatted value.
(The TS `null`/`undefined` guards never fire on the records produced by
the engine, whose fields are total.)  The composition
`formatPrice(x.toString())` of the source is the magnitude-based
formatting of `x` itself. -/
def formatWMA (wma : ℚ) (multiplier : ℚ) : String :=
  if wma = 0 then "—" else formatPriceQ (wma * multiplier)

/-- `formatVolatility`: `'—'` for zero, else three decimals. -/
def formatVolatility (value : ℚ) : String :=
  if value = 0 then "—" else ratToFixed value 3

/-- `formatChange`: `'—'` for zero, else the price-formatted value. -/
def formatChange (change : ℚ) (multiplier : ℚ) : String :=
  if change = 0 then "—" else formatPriceQ (change * multiplier)

/--
`formatRangeDisplay`: `'—'` when the high or low string is empty or the
range is zero; otherwise the full `H/L (R, WMA) | Chg | Vol (±%)`
display string.  The `!== undefined` guards on the change and volatility
fields always pass in this model (total fields).
-/
def formatRangeDisplay (range : MaxRange) (basePrice : Option String)
    (showHighLow : Bool) (multiplier : ℚ) (useVolatilityMultipliers : Bool) : String :=
  if range.high = "" ∨ range.low = "" ∨ range.range = 0 then "—"
  else
    let rangeVal := if useVolatilityMultipliers then range.range * max range.maxVolatility 1 else range.range
    let wmaVal := if useVolatilityMultipliers then range.wma * max range.wmaVolatility 1 else range.wma
    let rangeFormatted := formatPriceQ rangeVal
    let wmaFormatted := formatWMA wmaVal 1
    let changeMultiplier := if useVolatilityMultipliers then 1 else multiplier
    let base :=
      if showHighLow then
        "H: " ++ formatPrice range.high ++ ", L: " ++ formatPrice range.low ++
          " (R: " ++ rangeFormatted ++ ", WMA: " ++ wmaFormatted ++ ")" ++
          " | Avg Chg: " ++ formatChange range.avgAbsChange changeMultiplier ++
          ", WMA Chg: " ++ formatChange range.wmaAbsChange changeMultiplier ++
          ", Max Chg: " ++ formatChange range.maxAbsChange changeMultiplier
      else
        "R: " ++ rangeFormatted ++ ", WMA: " ++ wmaFormatted
    let withVol := base ++ " | Max Vol: " ++ formatVolatility range.maxVolatility ++
      ", WMA Vol: " ++ formatVolatility range.wmaVolatility
    match basePrice.bind parseFloat? with
    | some b =>
        if b ≠ 0 then
          let pctVal := if useVolatilityMultipliers then rangeVal else range.range
          let percentage := pctVal / b * 100
          withVol ++ " (" ++ (if percentage ≥ 0 then "+" else "") ++ ratToFixed percentage 2 ++ "%)"
        else withVol
    | none => withVol

/-! ## Threshold evaluator: notification decisions -/

/-- The active timeframe (`TimeframeType` union consumed by the
evaluator: `'5m' | '15m' | '1h' | '4h' | '1d'`). -/
inductive TimeframeType where
  | t5m
  | t15m
  | t1h
  | t4h
  | t1d
  deriving DecidableEq, Repr

/-- One element of the `prices` array handed to the evaluator: live
price, optional per-timeframe reference closes, optional `MaxRange`
array. -/
structure PriceItem where
  symbol : String
  price : String
  close5m : Option String
  close15m : Option String
  close1h : Option String
  close1d : Option String
  maxRanges : Option (List MaxRange)
  deriving Repr

/-- Per-symbol notification outcome `{ yellowMet, greenMet }`. -/
structure NotificationMet where
  yellowMet : Bool
  greenMet : Bool
  deriving DecidableEq, Repr

/-- `NOTIFY_THRESHOLD_AUTO` — sentinel for the "Auto" threshold. -/
def NOTIFY_THRESHOLD_AUTO : ℤ := -1

/-- `MULTIPLIER_VOLATILITY` — sentinel multiplier meaning "use measured
volatility as the ratio". -/
def MULTIPLIER_VOLATILITY : ℚ := -1

/-- `getThresholdMultipliers`: `(wmaRatio, rangeRatio)` — the measured
volatilities (floored at 1) in volatility mode, else `multiplier / 100`
for both. -/
def getThresholdMultipliers (range : MaxRange) (multiplier : ℚ) : ℚ × ℚ :=
  if multiplier = MULTIPLIER_VOLATILITY then
    (max range.wmaVolatility 1, max range.maxVolatility 1)
  else
    (multiplier / 100, multiplier / 100)

/-- The nested ternary selecting the reference close for the active
timeframe (`'5m' → close5m`, `'15m' → close15m`, `'1d' → close1d`, else
`close1h`). -/
def selectClose (timeframe : TimeframeType) (item : PriceItem) : Option String :=
  match timeframe with
  | .t5m => item.close5m
  | .t15m => item.close15m
  | .t1d => item.close1d
  | _ => item.close1h

/-- JS truthiness of an optional string (`undefined` and `""` falsy). -/
def strOptionTruthy : Option String → Bool
  | none => false
  | some s => s != ""

/--
The loop body of `getNotificationMetPerSymbol` for one price item:
guard clauses (missing close, missing/zero range, unparsable prices)
yield `{ yellowMet := false, greenMet := false }`; otherwise the met
flags from the configured thresholds (`0` ⇒ true, `AUTO` ⇒ time-decayed
bar, else a dot-score target), suppressed by the two volatility gates.
-/
def notificationMetForItem (item : PriceItem) (multiplier : ℚ)
    (timeframe : TimeframeType) (highlightedColumn : ℕ) (timeLeftFraction : ℚ)
    (yellowThreshold greenThreshold : ℤ)
    (maxVolatilityThreshold wmaVolatilityThreshold : ℚ)
    (mainTableScale : ℚ) : NotificationMet :=
  let closePrice := selectClose timeframe item
  if !strOptionTruthy closePrice then ⟨false, false⟩
  else
    match item.maxRanges.bind (List.find? (fun r => r.windowSize == highlightedColumn)) with
    | none => ⟨false, false⟩
    | some range =>
      if range.range = 0 then ⟨false, false⟩
      else
        let ratios := getThresholdMultipliers range multiplier
        let wmaThreshold := range.wma * ratios.1 * mainTableScale
        let maxRangeThreshold := range.range * ratios.2 * mainTableScale
        match parseFloat? item.price, parseFloat? (closePrice.getD "") with
        | some currentPrice, some closePriceNum =>
          let absoluteDeviation := |currentPrice - closePriceNum|
          let yellowMet :=
            if yellowThreshold = 0 then true
            else if yellowThreshold = NOTIFY_THRESHOLD_AUTO then
              decide (absoluteDeviation ≥ wmaThreshold * timeLeftFraction)
            else
              decide ((getFilledDots absoluteDeviation wmaThreshold : ℤ) ≥ yellowThreshold)
          let greenMet :=
            if greenThreshold = 0 then true
            else if greenThreshold = NOTIFY_THRESHOLD_AUTO then
              decide (absoluteDeviation ≥ maxRangeThreshold * timeLeftFraction)
            else
              decide ((getFilledDots absoluteDeviation maxRangeThreshold : ℤ) ≥ greenThreshold)
          let suppressMax := decide (maxVolatilityThreshold > 0) && decide (range.maxVolatility < maxVolatilityThreshold)
          let suppressWma := decide (wmaVolatilityThreshold > 0) && decide (range.wmaVolatility < wmaVolatilityThreshold)
          let suppressed := suppressMax || suppressWma
          ⟨yellowMet && !suppressed, greenMet && !suppressed⟩
        | _, _ => ⟨false, false⟩

/-- Model of assignment to a string-keyed JS record: replace an existing
binding in place, else append. -/
def recordSet (rec : List (String × NotificationMet)) (k : String)
    (v : NotificationMet) : List (String × NotificationMet) :=
  if (rec.lookup k).isSome then rec.map (fun kv => if kv.1 = k then (k, v) else kv)
  else rec ++ [(k, v)]

/-- `getNotificationMetPerSymbol`: the per-item decision for every entry
of the `prices` array, collected into the symbol-keyed result record. -/
def getNotificationMetPerSymbol (prices : List PriceItem) (multiplier : ℚ)
    (timeframe : TimeframeType) (highlightedColumn : ℕ) (timeLeftFraction : ℚ)
    (yellowThreshold greenThreshold : ℤ)
    (maxVolatilityThreshold wmaVolatilityThreshold : ℚ)
    (mainTableScale : ℚ) : List (String × NotificationMet) :=
  prices.foldl (fun acc item =>
    recordSet acc item.symbol
      (notificationMetForItem item multiplier timeframe highlightedColumn
        timeLeftFraction yellowThreshold greenThreshold
        maxVolatilityThreshold wmaVolatilityThreshold mainTableScale)) []

/-! ## Candle store: fetch planning and merge (from `fetch1mCandles`) -/

/-- The dispatch decision of `fetch1mCandles` for one symbol. -/
inductive FetchPlan where
  | fullFetch
  | skip
  | incremental (missingCount : ℕ)
  deriving DecidableEq, Repr

/-- `Math.floor(now / 60000) * 60000` — the open time of the latest
completed 1-minute candle. -/
def latestCompletedCandleOpenTime (now : ℕ) : ℕ := now / 60000 * 60000

/--
The per-symbol dispatch of `fetch1mCandles`: full fetch when no buffer
exists, is empty, or is shorter than `candleLimit`; otherwise compute the
missing-candle count from the latest completed open time (skip when
nothing is missing, else an incremental fetch capped at `candleLimit`).
`ℕ` subtraction truncates at zero exactly when the JS signed difference
is `≤ 0`; both models then take the `skip` branch.
-/
def planFetch (existing : Option (List Candle)) (candleLimit : ℕ) (now : ℕ) : FetchPlan :=
  match existing with
  | none => .fullFetch
  | some existingCandles =>
    if existingCandles.length = 0 then .fullFetch
    else if existingCandles.length < candleLimit then .fullFetch
    else
      let lastCandleOpenTime := ((existingCandles.getLast?).map (·.openTime)).getD 0
      let minutesMissing := (latestCompletedCandleOpenTime now - lastCandleOpenTime) / 60000
      if minutesMissing ≤ 0 then .skip
      else .incremental (min minutesMissing candleLimit)

/-- The request limit of an incremental fetch:
`get1mCandles(symbol, missingCount + 1)`. -/
def incrementalRequestLimit (missingCount : ℕ) : ℕ := missingCount + 1

/-- The request limit of a full fetch:
`get1mCandlesBatch(symbols, candleLimit + 1)`. -/
def fullFetchRequestLimit (candleLimit : ℕ) : ℕ := candleLimit + 1

/-- The full-fetch replacement buffer: drop the trailing incomplete
candle (`candles.slice(0, -1)`). -/
def mergeFull (fetched : List Candle) : List Candle := fetched.dropLast

/-- The comparator `(a, b) => a.openTime - b.openTime` as a Boolean
`≤` test (ascending, stable). -/
def candleLe (a b : Candle) : Bool := a.openTime ≤ b.openTime

/-- The untrimmed merge of an incremental fetch: drop the trailing
incomplete candle, filter out open times already buffered, append to the
existing buffer and stable-sort by `openTime`. -/
def mergeCombined (existing fetched : List Candle) : List Candle :=
  let newCandles := fetched.dropLast
  let existingOpenTimes := existing.map (·.openTime)
  let uniqueNewCandles := newCandles.filter (fun c => !existingOpenTimes.contains c.openTime)
  (existing ++ uniqueNewCandles).mergeSort candleLe

/-- Model of `arr.slice(-n)` on arrays: the last `n` elements — except
that `slice(-0)` is `slice(0)`, the whole array. -/
def jsSliceNeg (l : List Candle) (n : ℕ) : List Candle :=
  if n = 0 then l else l.drop (l.length - n)

/-- The merge-and-trim step of an incremental fetch: merge, then trim
the oldest candles (`mergedCandles.slice(-candleLimit)`) when the merged
buffer exceeds `candleLimit`. -/
def mergeIncremental (existing fetched : List Candle) (candleLimit : ℕ) : List Candle :=
  let mergedCandles := mergeCombined existing fetched
  if candleLimit < mergedCandles.length then jsSliceNeg mergedCandles candleLimit
  else mergedCandles

/-! ## Polling backoff state machine (live-price loop) -/

/-- `POLL_INTERVAL` — normal live-price polling period (ms). -/
def POLL_INTERVAL : ℕ := 5000

/-- `MAX_BACKOFF_INTERVAL` — maximum backoff period (ms). -/
def MAX_BACKOFF_INTERVAL : ℕ := 60000

/-- The backoff-relevant state of the live-price loop: the current
polling interval (`currentIntervalRef`) and the rate-limited flag
(`isRateLimited`). -/
structure PollState where
  currentInterval : ℕ
  rateLimited : Bool
  deriving DecidableEq, Repr

/-- The rate-limit payload of a `BinanceRateLimitError`: the optional
`Retry-After` value in seconds (`none` when the header was absent). -/
structure RateLimitError where
  statusCode : ℕ
  retryAfter : Option ℕ
  deriving DecidableEq, Repr

/-- JS truthiness of `err.retryAfter`: `undefined` and `0` are falsy. -/
def retryAfterTruthy : Option ℕ → Bool
  | none => false
  | some r => r != 0

/-- The rate-limit branch of `fetchPrices`'s catch handler: computes the
backoff interval (`retryAfterMs`), stores it as the current interval and
raises the rate-limited flag. -/
def handleRateLimit (st : PollState) (err : RateLimitError) : PollState :=
  let retryAfterMs :=
    if retryAfterTruthy err.retryAfter then
      min ((err.retryAfter.getD 0) * 1000) MAX_BACKOFF_INTERVAL
    else
      min (st.currentInterval * 2) MAX_BACKOFF_INTERVAL
  { currentInterval := retryAfterMs, rateLimited := true }

/-- The success path of `fetchPrices`: clears the rate-limited flag and
resets the polling interval to the normal period. -/
def handleFetchSuccess (_st : PollState) : PollState :=
  { currentInterval := POLL_INTERVAL, rateLimited := false }

end Crypto

/-! ## Claim theorems -/

/--
C5: in the live-price loop's backoff state machine, a rate-limit error
carrying `retryAfterSeconds = 30` sets the next polling interval to
`min(30 × 1000, MAX_BACKOFF) = 30000` ms and sets the rate-limited flag;
a rate-limit error without retry-after sets the interval to
`min(currentInterval × 2, MAX_BACKOFF)`; the next successful fetch resets
the interval to the default normal period `POLL_INTERVAL`.
-/
theorem backoff_state_machine_spec (st : Crypto.PollState) (status : ℕ) :
    Crypto.handleRateLimit st ⟨status, some 30⟩ =
      ⟨min (30 * 1000) Crypto.MAX_BACKOFF_INTERVAL, true⟩ ∧
    Crypto.handleRateLimit st ⟨status, some 30⟩ = ⟨30000, true⟩ ∧
    Crypto.handleRateLimit st ⟨status, none⟩ =
      ⟨min (st.currentInterval * 2) Crypto.MAX_BACKOFF_INTERVAL, true⟩ ∧
    Crypto.handleFetchSuccess st = ⟨Crypto.POLL_INTERVAL, false⟩ ∧
    Crypto.POLL_INTERVAL = 5000 := by
  refine ⟨?_, ?_, ?_, rfl, rfl⟩ <;>
    (simp only [Crypto.handleRateLimit, Crypto.retryAfterTruthy,
      Crypto.MAX_BACKOFF_INTERVAL] <;> norm_num)

/--
C8: for the concrete two-candle buffer
`{openTime 0, high "10", low "8", open "9", close "9.5"}`,
`{openTime 60000, high "12", low "9", open "9.5", close "11"}` and
`windowSize = 2`, `calculateMaxRangeForWindow` returns `range = 4`, the
original strings `high = "12"` and `low = "8"`, and `wma = 4` (a single
window position of weight 1).
-/
theorem calculateMaxRangeForWindow_two_candle_example :
    ((Crypto.calculateMaxRangeForWindow
        [⟨0, "9", "10", "8", "9.5", "1"⟩, ⟨60000, "9.5", "12", "9", "11", "1"⟩]
        2 none).1).map (fun r => (r.range, r.high, r.low, r.wma)) =
      some (4, "12", "8", 4) := by decide

/--
C9: for `deviation ≥ 0` and `threshold ≥ 0`, the dot score is `0` when
the threshold is zero, and otherwise follows the
`ratio > 1 / 0.75 / 0.5 / 0.25` ladder; in particular zero deviation
scores `0`, `1.1 ×` threshold scores `4`, and `0.26 ×` threshold
scores `1`.
-/
theorem getFilledDots_spec (deviation threshold : ℚ)
    (hd : 0 ≤ deviation) (ht : 0 ≤ threshold) :
    (threshold = 0 → Crypto.getFilledDots deviation threshold = 0) ∧
    (threshold ≠ 0 → Crypto.getFilledDots deviation threshold =
      (if deviation / threshold > 1 then 4
       else if deviation / threshold > 3/4 then 3
       else if deviation / threshold > 1/2 then 2
       else if deviation / threshold > 1/4 then 1
       else 0)) ∧
    Crypto.getFilledDots 0 threshold = 0 ∧
    (threshold ≠ 0 → Crypto.getFilledDots (11/10 * threshold) threshold = 4) ∧
    (threshold ≠ 0 → Crypto.getFilledDots (26/100 * threshold) threshold = 1) := by
  refine ⟨fun h0 => by simp [Crypto.getFilledDots, h0], fun hne => by simp [Crypto.getFilledDots, hne],
    ?_, fun hne => ?_, fun hne => ?_⟩
  · by_cases h0 : threshold = 0
    · simp [Crypto.getFilledDots, h0]
    · have hpos : (0 : ℚ) < threshold := lt_of_le_of_ne ht (Ne.symm h0)
      simp only [Crypto.getFilledDots, h0, if_false, zero_div]
      norm_num
  · have hratio : 11/10 * threshold / threshold = 11/10 := by
      rw [mul_div_assoc, div_self hne, mul_one]
    simp only [Crypto.getFilledDots, hne, if_false, hratio]
    norm_num
  · have hratio : 26/100 * threshold / threshold = 26/100 := by
      rw [mul_div_assoc, div_self hne, mul_one]
    simp only [Crypto.getFilledDots, hne, if_false, hratio]
    norm_num

/-- Witness for C9 at `deviation = 11/10`, `threshold = 1`. -/
theorem getFilledDots_spec_witness :
    Crypto.getFilledDots (11/10 * 1) 1 = 4 :=
  (getFilledDots_spec (11/10) 1 (by norm_num) (by norm_num)).2.2.2.1 (by norm_num)

/-! ### Candle-buffer merge: ordering helpers -/

/-- The merge comparator is transitive. -/
theorem candleLe_trans (a b c : Crypto.Candle) :
    Crypto.candleLe a b → Crypto.candleLe b c → Crypto.candleLe a c := by
  simp only [Crypto.candleLe, decide_eq_true_eq]
  omega

/-- The merge comparator is total. -/
theorem candleLe_total (a b : Crypto.Candle) :
    Crypto.candleLe a b || Crypto.candleLe b a := by
  simp only [Crypto.candleLe, Bool.or_eq_true, decide_eq_true_eq]
  omega

/-- The merged (untrimmed) buffer is sorted by ascending `openTime`. -/
theorem mergeCombined_sorted (existing fetched : List Crypto.Candle) :
    (Crypto.mergeCombined existing fetched).Pairwise
      (fun a b => a.openTime ≤ b.openTime) := by
  unfold Crypto.mergeCombined
  refine (List.sorted_mergeSort ?_ ?_ _).imp ?_
  · exact fun a b c => candleLe_trans a b c
  · exact fun a b => candleLe_total a b
  · intro a b h
    simpa [Crypto.candleLe] using h

/-- Open times of the merged (untrimmed) buffer are duplicate-free,
provided the existing buffer and the (truncated) fetch result are. -/
theorem mergeCombined_nodup (existing fetched : List Crypto.Candle)
    (hex : (existing.map Crypto.Candle.openTime).Nodup)
    (hnew : ((fetched.dropLast).map Crypto.Candle.openTime).Nodup) :
    ((Crypto.mergeCombined existing fetched).map Crypto.Candle.openTime).Nodup := by
  unfold Crypto.mergeCombined
  have hperm := (List.mergeSort_perm
    (existing ++ (fetched.dropLast).filter
      (fun c => !((existing.map (·.openTime)).contains c.openTime)))
    Crypto.candleLe).map Crypto.Candle.openTime
  rw [List.Perm.nodup_iff hperm, List.map_append, List.nodup_append]
  refine ⟨hex, ?_, ?_⟩
  · exact List.Nodup.sublist (((List.filter_sublist _).map _)) hnew
  · intro t ht ht'
    rcases List.mem_map.mp ht' with ⟨c, hc, rfl⟩
    rcases List.mem_filter.mp hc with ⟨_, hpred⟩
    simp only [Bool.not_eq_eq_eq_not, Bool.not_true, List.contains,
      List.elem_eq_mem, decide_eq_false_iff_not] at hpred
    exact hpred ht

/--
C2: after any merge step — full-fetch replacement (of a response of at
most `candleLimit + 1` rows) or incremental append followed by trimming —
the buffer has length at most `candleLimit`, and when trimming is needed
the dropped candles form the oldest prefix of the sorted merged buffer:
every removed candle's `openTime` is `≤` every kept candle's.
(`candleLimit ≥ 1` holds for every configuration the hook constructs:
`historyHours` or `historyHours × 60` with `historyHours ≥ 12`.)
-/
theorem merge_length_le_candleLimit
    (fetchedFull existing fetchedIncr : List Crypto.Candle) (candleLimit : ℕ)
    (hfull : fetchedFull.length ≤ candleLimit + 1) (hlim : 1 ≤ candleLimit) :
    (Crypto.mergeFull fetchedFull).length ≤ candleLimit ∧
    (Crypto.mergeIncremental existing fetchedIncr candleLimit).length ≤ candleLimit ∧
    (candleLimit < (Crypto.mergeCombined existing fetchedIncr).length →
      ∃ dropped,
        Crypto.mergeCombined existing fetchedIncr =
          dropped ++ Crypto.mergeIncremental existing fetchedIncr candleLimit ∧
        ∀ a ∈ dropped, ∀ b ∈ Crypto.mergeIncremental existing fetchedIncr candleLimit,
          a.openTime ≤ b.openTime) := by
  have hlim0 : candleLimit ≠ 0 := by omega
  refine ⟨?_, ?_, ?_⟩
  · simp only [Crypto.mergeFull, List.length_dropLast]
    omega
  · by_cases h : candleLimit < (Crypto.mergeCombined existing fetchedIncr).length
    · simp only [Crypto.mergeIncremental, Crypto.jsSliceNeg, h, if_true, hlim0, if_false,
        List.length_drop]
      omega
    · simp only [Crypto.mergeIncremental, h, if_false]
      omega
  · intro h
    simp only [Crypto.mergeIncremental, Crypto.jsSliceNeg, h, if_true, hlim0, if_false]
    refine ⟨(Crypto.mergeCombined existing fetchedIncr).take
      ((Crypto.mergeCombined existing fetchedIncr).length - candleLimit),
      (List.take_append_drop _ _).symm, ?_⟩
    have hp : ((Crypto.mergeCombined existing fetchedIncr).take
          ((Crypto.mergeCombined existing fetchedIncr).length - candleLimit) ++
        (Crypto.mergeCombined existing fetchedIncr).drop
          ((Crypto.mergeCombined existing fetchedIncr).length - candleLimit)).Pairwise
        (fun a b => a.openTime ≤ b.openTime) := by
      rw [List.take_append_drop]
      exact mergeCombined_sorted existing fetchedIncr
    exact (List.pairwise_append.mp hp).2.2

/-- Witness for C2 with a two-row full fetch and empty incremental
inputs at `candleLimit = 1`. -/
theorem merge_length_le_candleLimit_witness :
    (Crypto.mergeFull [Crypto.defaultCandle, Crypto.defaultCandle]).length ≤ 1 ∧
    (Crypto.mergeIncremental [] [] 1).length ≤ 1 ∧
    (1 < (Crypto.mergeCombined [] []).length →
      ∃ dropped,
        Crypto.mergeCombined [] [] = dropped ++ Crypto.mergeIncremental [] [] 1 ∧
        ∀ a ∈ dropped, ∀ b ∈ Crypto.mergeIncremental [] [] 1,
          a.openTime ≤ b.openTime) :=
  merge_length_le_candleLimit [Crypto.defaultCandle, Crypto.defaultCandle] [] [] 1
    (by decide) (by decide)

/--
C3: the incremental merge preserves the buffer invariant — the result
has pairwise-distinct open times and is strictly ascending in `openTime`
(whenever the prior buffer and the truncated fetch result each have
duplicate-free open times) — and merging a fetch result whose candles'
open times are all already buffered is a no-op on a sorted,
within-limit buffer.
-/
theorem merge_invariant_and_idempotent
    (existing fetched : List Crypto.Candle) (candleLimit : ℕ)
    (hex : (existing.map Crypto.Candle.openTime).Nodup)
    (hnew : ((fetched.dropLast).map Crypto.Candle.openTime).Nodup) :
    ((Crypto.mergeIncremental existing fetched candleLimit).map
      Crypto.Candle.openTime).Nodup ∧
    (Crypto.mergeIncremental existing fetched candleLimit).Pairwise
      (fun a b => a.openTime < b.openTime) ∧
    (existing.Pairwise (fun a b => a.openTime < b.openTime) →
      existing.length ≤ candleLimit →
      (∀ c ∈ fetched.dropLast, c.openTime ∈ existing.map Crypto.Candle.openTime) →
      Crypto.mergeIncremental existing fetched candleLimit = existing) := by
  have hnd := mergeCombined_nodup existing fetched hex hnew
  have hle := mergeCombined_sorted existing fetched
  have hlt : (Crypto.mergeCombined existing fetched).Pairwise
      (fun a b => a.openTime < b.openTime) := by
    have hne : (Crypto.mergeCombined existing fetched).Pairwise
        (fun a b => a.openTime ≠ b.openTime) := by
      rw [List.Nodup, List.pairwise_map] at hnd
      exact hnd
    exact (hle.and hne).imp (fun h => lt_of_le_of_ne h.1 h.2)
  have hsub : List.Sublist (Crypto.mergeIncremental existing fetched candleLimit)
      (Crypto.mergeCombined existing fetched) := by
    by_cases h : candleLimit < (Crypto.mergeCombined existing fetched).length
    · simp only [Crypto.mergeIncremental, Crypto.jsSliceNeg, h, if_true]
      by_cases h0 : candleLimit = 0
      · simp only [h0, if_true]
        exact List.Sublist.refl _
      · simp only [h0, if_false]
        exact List.drop_sublist _ _
    · simp only [Crypto.mergeIncremental, h, if_false]
      exact List.Sublist.refl _
  refine ⟨List.Nodup.sublist (hsub.map _) hnd, List.Pairwise.sublist hsub hlt, ?_⟩
  · intro hsorted hwithin hmem
    have hfil : (fetched.dropLast).filter
        (fun c => !((existing.map (·.openTime)).contains c.openTime)) = [] := by
      rw [List.filter_eq_nil_iff]
      intro c hc
      have := hmem c hc
      simp only [Bool.not_eq_eq_eq_not, Bool.not_true, List.contains, List.elem_eq_mem,
        decide_eq_false_iff_not, not_not]
      exact this
    have hcomb : Crypto.mergeCombined existing fetched = existing := by
      show ((existing ++ (fetched.dropLast).filter
        (fun c => !((existing.map (·.openTime)).contains c.openTime))).mergeSort
          Crypto.candleLe) = existing
      rw [hfil, List.append_nil]
      exact List.mergeSort_of_sorted
        (hsorted.imp (fun h => by simp only [Crypto.candleLe, decide_eq_true_eq]; omega))
    simp only [Crypto.mergeIncremental, hcomb]
    have : ¬ candleLimit < existing.length := by omega
    simp only [this, if_false]

/-- Witness for C3 on a two-candle buffer and a two-row fetch result. -/
theorem merge_invariant_and_idempotent_witness :
    (((Crypto.mergeIncremental
        [⟨0, "1", "1", "1", "1", "1"⟩, ⟨60000, "1", "1", "1", "1", "1"⟩]
        [⟨60000, "1", "1", "1", "1", "1"⟩, ⟨120000, "1", "1", "1", "1", "1"⟩] 60).map
      Crypto.Candle.openTime).Nodup ∧
    (Crypto.mergeIncremental
        [⟨0, "1", "1", "1", "1", "1"⟩, ⟨60000, "1", "1", "1", "1", "1"⟩]
        [⟨60000, "1", "1", "1", "1", "1"⟩, ⟨120000, "1", "1", "1", "1", "1"⟩] 60).Pairwise
      (fun a b => a.openTime < b.openTime) ∧
    (([⟨0, "1", "1", "1", "1", "1"⟩, ⟨60000, "1", "1", "1", "1", "1"⟩] :
        List Crypto.Candle).Pairwise (fun a b => a.openTime < b.openTime) →
      ([⟨0, "1", "1", "1", "1", "1"⟩, ⟨60000, "1", "1", "1", "1", "1"⟩] :
        List Crypto.Candle).length ≤ 60 →
      (∀ c ∈ ([⟨60000, "1", "1", "1", "1", "1"⟩, ⟨120000, "1", "1", "1", "1", "1"⟩] :
          List Crypto.Candle).dropLast,
        c.openTime ∈ ([⟨0, "1", "1", "1", "1", "1"⟩, ⟨60000, "1", "1", "1", "1", "1"⟩] :
          List Crypto.Candle).map Crypto.Candle.openTime) →
      Crypto.mergeIncremental
        [⟨0, "1", "1", "1", "1", "1"⟩, ⟨60000, "1", "1", "1", "1", "1"⟩]
        [⟨60000, "1", "1", "1", "1", "1"⟩, ⟨120000, "1", "1", "1", "1", "1"⟩] 60 =
        [⟨0, "1", "1", "1", "1", "1"⟩, ⟨60000, "1", "1", "1", "1", "1"⟩])) :=
  merge_invariant_and_idempotent
    [⟨0, "1", "1", "1", "1", "1"⟩, ⟨60000, "1", "1", "1", "1", "1"⟩]
    [⟨60000, "1", "1", "1", "1", "1"⟩, ⟨120000, "1", "1", "1", "1", "1"⟩] 60
    (by decide) (by decide)

/-- In a `≤`-sorted list of naturals, every element is at most the last
element. -/
theorem all_le_getLast : ∀ (l : List ℕ) (m : ℕ), l.Pairwise (· ≤ ·) →
    l.getLast? = some m → ∀ x ∈ l, x ≤ m := by
  intro l
  induction l with
  | nil => intro m _ h; simp at h
  | cons a t ih =>
    intro m hp hl x hx
    rcases List.pairwise_cons.mp hp with ⟨ha, hp'⟩
    cases t with
    | nil =>
      simp only [List.getLast?_singleton, Option.some.injEq] at hl
      rcases List.mem_singleton.mp hx with rfl
      omega
    | cons b t' =>
      rw [List.getLast?_cons_cons] at hl
      rcases List.mem_cons.mp hx with rfl | hx'
      · exact ha m (List.mem_of_getLast?_eq_some hl)
      · exact ih m hp' hl x hx'

/--
C4: with `candleLimit = 60` and a full 60-candle 1-minute buffer whose
last candle has minute-aligned open time `T`, an incremental fetch at
wall-clock time `T + 3` minutes computes exactly 3 missing candles and
requests `3 + 1 = 4` rows; dropping the trailing (still-forming, its
open time past the latest completed minute) row of the 4-row response
and merging trims the buffer back to exactly 60 candles.
-/
theorem incremental_fetch_scenario
    (existing fetched : List Crypto.Candle) (T : ℕ)
    (hlen : existing.length = 60)
    (hsorted : existing.Pairwise (fun a b => a.openTime < b.openTime))
    (hlast : (existing.map (·.openTime)).getLast? = some T)
    (halign : 60000 ∣ T)
    (hresp : fetched.map (·.openTime) =
      [T + 60000, T + 120000, T + 180000, T + 240000]) :
    Crypto.planFetch (some existing) 60 (T + 180000) = .incremental 3 ∧
    Crypto.incrementalRequestLimit 3 = 4 ∧
    (fetched.dropLast).map (·.openTime) = [T + 60000, T + 120000, T + 180000] ∧
    Crypto.latestCompletedCandleOpenTime (T + 180000) < T + 240000 ∧
    (Crypto.mergeIncremental existing fetched 60).length = 60 := by
  obtain ⟨k, rfl⟩ := halign
  have hlatest : Crypto.latestCompletedCandleOpenTime (60000 * k + 180000) =
      60000 * k + 180000 := by
    unfold Crypto.latestCompletedCandleOpenTime
    have h3 : 60000 * k + 180000 = 60000 * (k + 3) := by ring
    rw [h3, Nat.mul_div_cancel_left _ (by norm_num)]
    ring
  have hlast' : (existing.getLast?).map (fun c : Crypto.Candle => c.openTime) =
      some (60000 * k) := by
    rw [← List.getLast?_map]
    exact hlast
  have hflen : fetched.length = 4 := by
    have := congrArg List.length hresp
    simpa using this
  have hdrop : (fetched.dropLast).map (·.openTime) =
      [60000 * k + 60000, 60000 * k + 120000, 60000 * k + 180000] := by
    rw [List.map_dropLast, hresp]
    rfl
  refine ⟨?_, rfl, hdrop, by omega, ?_⟩
  · simp only [Crypto.planFetch, hlen, hlatest, hlast']
    norm_num
  · have hexle : ∀ x ∈ existing.map (·.openTime), x ≤ 60000 * k :=
      all_le_getLast _ _
        (List.pairwise_map.mpr (hsorted.imp (fun h => Nat.le_of_lt h))) hlast
    have hfil : (fetched.dropLast).filter
        (fun c => !((existing.map (·.openTime)).contains c.openTime)) =
        fetched.dropLast := by
      rw [List.filter_eq_self]
      intro c hc
      have hmemc : c.openTime ∈ (fetched.dropLast).map (·.openTime) :=
        List.mem_map_of_mem _ hc
      rw [hdrop] at hmemc
      simp only [List.mem_cons, List.not_mem_nil, or_false] at hmemc
      have hgt : 60000 * k < c.openTime := by
        rcases hmemc with h | h | h <;> omega
      simp only [Bool.not_eq_eq_eq_not, Bool.not_true, List.contains, List.elem_eq_mem,
        decide_eq_false_iff_not]
      intro hmem
      exact absurd (hexle _ hmem) (by omega)
    have hdlen : (fetched.dropLast).length = 3 := by
      simp [List.length_dropLast, hflen]
    have hmc : (Crypto.mergeCombined existing fetched).length = 63 := by
      show ((existing ++ (fetched.dropLast).filter
        (fun c => !((existing.map (·.openTime)).contains c.openTime))).mergeSort
          Crypto.candleLe).length = 63
      rw [List.length_mergeSort, List.length_append, hlen, hfil, hdlen]
    have h60 : (60 : ℕ) < (Crypto.mergeCombined existing fetched).length := by omega
    simp only [Crypto.mergeIncremental, Crypto.jsSliceNeg, h60, if_true]
    norm_num [List.length_drop, hmc]

/-- Witness for C4: a concrete 60-candle buffer with open times
`0, 60000, …, 3540000` (`T = 3540000`) and the concrete 4-row response. -/
theorem incremental_fetch_scenario_witness :
    Crypto.planFetch
      (some ((List.range 60).map
        (fun i => (⟨i * 60000, "1", "1", "1", "1", "1"⟩ : Crypto.Candle))))
      60 (3540000 + 180000) = .incremental 3 ∧
    Crypto.incrementalRequestLimit 3 = 4 ∧
    (([⟨3600000, "1", "1", "1", "1", "1"⟩, ⟨3660000, "1", "1", "1", "1", "1"⟩,
        ⟨3720000, "1", "1", "1", "1", "1"⟩, ⟨3780000, "1", "1", "1", "1", "1"⟩] :
      List Crypto.Candle).dropLast).map (·.openTime) =
      [3540000 + 60000, 3540000 + 120000, 3540000 + 180000] ∧
    Crypto.latestCompletedCandleOpenTime (3540000 + 180000) < 3540000 + 240000 ∧
    (Crypto.mergeIncremental
      ((List.range 60).map
        (fun i => (⟨i * 60000, "1", "1", "1", "1", "1"⟩ : Crypto.Candle)))
      [⟨3600000, "1", "1", "1", "1", "1"⟩, ⟨3660000, "1", "1", "1", "1", "1"⟩,
        ⟨3720000, "1", "1", "1", "1", "1"⟩, ⟨3780000, "1", "1", "1", "1", "1"⟩]
      60).length = 60 :=
  incremental_fetch_scenario
    ((List.range 60).map (fun i => (⟨i * 60000, "1", "1", "1", "1", "1"⟩ : Crypto.Candle)))
    [⟨3600000, "1", "1", "1", "1", "1"⟩, ⟨3660000, "1", "1", "1", "1", "1"⟩,
      ⟨3720000, "1", "1", "1", "1", "1"⟩, ⟨3780000, "1", "1", "1", "1", "1"⟩]
    3540000
    (by simp)
    (by
      rw [List.pairwise_map]
      exact (List.pairwise_lt_range 60).imp (fun h => by dsimp only; omega))
    (by decide)
    ⟨59, by norm_num⟩
    (by decide)

/-! ### Decimal rendering and parsing round-trip -/

/-- With enough fuel, the fuelled digit renderer agrees with the
mathematical digit expansion. -/
theorem natToCharsAux_eq_digits : ∀ (fuel n : ℕ), n ≤ fuel →
    Crypto.natToCharsAux fuel n = ((Nat.digits 10 n).reverse).map Nat.digitChar := by
  intro fuel
  induction fuel with
  | zero =>
    intro n hn
    have : n = 0 := by omega
    subst this
    simp [Crypto.natToCharsAux]
  | succ fuel ih =>
    intro n hn
    by_cases h0 : n = 0
    · subst h0
      simp [Crypto.natToCharsAux]
    · have hdig : Nat.digits 10 n = n % 10 :: Nat.digits 10 (n / 10) :=
        Nat.digits_def' (by norm_num) (Nat.pos_of_ne_zero h0)
      have hdiv : n / 10 ≤ fuel := by
        have : n / 10 < n := Nat.div_lt_self (Nat.pos_of_ne_zero h0) (by norm_num)
        omega
      simp only [Crypto.natToCharsAux, h0, if_false, hdig, List.reverse_cons,
        List.map_append, List.map_cons, List.map_nil, ih _ hdiv]

/-- Every digit produced by `Nat.digitChar` on a value below 10 is a
decimal digit character. -/
theorem digitChar_isDigit : ∀ d, d < 10 → (Nat.digitChar d).isDigit = true := by decide

/-- `charDigit` inverts `Nat.digitChar` on values below 10. -/
theorem charDigit_digitChar : ∀ d, d < 10 → Crypto.charDigit (Nat.digitChar d) = d := by
  decide

/-- Every character of a rendered natural number is a decimal digit. -/
theorem natToChars_all_digit (n : ℕ) : ∀ c ∈ Crypto.natToChars n, c.isDigit = true := by
  intro c hc
  by_cases h0 : n = 0
  · subst h0
    simp only [Crypto.natToChars, if_true, List.mem_singleton] at hc
    subst hc
    decide
  · rw [Crypto.natToChars, if_neg h0, natToCharsAux_eq_digits n n le_rfl] at hc
    rcases List.mem_map.mp hc with ⟨d, hd, rfl⟩
    exact digitChar_isDigit d (Nat.digits_lt_base (by norm_num) (List.mem_reverse.mp hd))

/-- A rendered natural number is never the empty character list. -/
theorem natToChars_ne_nil (n : ℕ) : Crypto.natToChars n ≠ [] := by
  by_cases h0 : n = 0
  · subst h0
    simp [Crypto.natToChars]
  · rw [Crypto.natToChars, if_neg h0, natToCharsAux_eq_digits n n le_rfl]
    simp only [ne_eq, List.map_eq_nil_iff, List.reverse_eq_nil_iff]
    exact Nat.digits_ne_nil_iff_ne_zero.mpr h0

/-- Folding the decimal digits of a digit list recovers its value. -/
theorem digitsVal_reverse_map (l : List ℕ) (h : ∀ d ∈ l, d < 10) :
    Crypto.digitsVal ((l.reverse).map Nat.digitChar) = Nat.ofDigits 10 l := by
  induction l with
  | nil => simp [Crypto.digitsVal]
  | cons d t ih =>
    have hd : d < 10 := h d (List.mem_cons_self d t)
    have ht : ∀ x ∈ t, x < 10 := fun x hx => h x (List.mem_cons_of_mem d hx)
    simp only [List.reverse_cons, List.map_append, List.map_cons, List.map_nil]
    unfold Crypto.digitsVal
    rw [List.foldl_append]
    have := ih ht
    unfold Crypto.digitsVal at this
    simp only [this, List.foldl_cons, List.foldl_nil, charDigit_digitChar d hd,
      Nat.ofDigits_cons]
    ring

/-- The digit fold inverts the decimal rendering. -/
theorem digitsVal_natToChars (n : ℕ) : Crypto.digitsVal (Crypto.natToChars n) = n := by
  by_cases h0 : n = 0
  · subst h0
    decide
  · rw [Crypto.natToChars, if_neg h0, natToCharsAux_eq_digits n n le_rfl,
      digitsVal_reverse_map _ (fun d hd => Nat.digits_lt_base (by norm_num) hd),
      Nat.ofDigits_digits]

/-- The model of `parseInt` inverts the model of number-to-string
conversion. -/
theorem parseIntDec_natToString (n : ℕ) :
    Crypto.parseIntDec (Crypto.natToString n) = some n := by
  have hdata : (Crypto.natToString n).data = Crypto.natToChars n := rfl
  have htake : (Crypto.natToChars n).takeWhile (·.isDigit) = Crypto.natToChars n :=
    List.takeWhile_eq_self_iff.mpr (natToChars_all_digit n)
  unfold Crypto.parseIntDec
  rw [hdata, htake]
  have : (Crypto.natToChars n).isEmpty = false := by
    rcases hne : Crypto.natToChars n with _ | ⟨c, t⟩
    · exact absurd hne (natToChars_ne_nil n)
    · rfl
  simp only [this, Bool.false_eq_true, if_false, digitsVal_natToChars]

/-- Splitting a separator-free chunk yields a single piece. -/
theorem splitOnCharAux_no_sep (sep : Char) :
    ∀ (xs acc : List Char), sep ∉ xs →
      Crypto.splitOnCharAux sep xs acc = [acc.reverse ++ xs] := by
  intro xs
  induction xs with
  | nil => intro acc _; simp [Crypto.splitOnCharAux]
  | cons x t ih =>
    intro acc hmem
    have hx : ¬ x = sep := fun h => hmem (h ▸ List.mem_cons_self x t)
    have ht : sep ∉ t := fun h => hmem (List.mem_cons_of_mem x h)
    simp only [Crypto.splitOnCharAux, if_neg hx, ih (x :: acc) ht,
      List.reverse_cons, List.append_assoc, List.cons_append, List.nil_append]

/-- Splitting passes through the first separator occurrence. -/
theorem splitOnCharAux_through (sep : Char) :
    ∀ (a b acc : List Char), sep ∉ a →
      Crypto.splitOnCharAux sep (a ++ sep :: b) acc =
        (acc.reverse ++ a) :: Crypto.splitOnCharAux sep b [] := by
  intro a
  induction a with
  | nil =>
    intro b acc _
    simp [Crypto.splitOnCharAux]
  | cons x t ih =>
    intro b acc hmem
    have hx : ¬ x = sep := fun h => hmem (h ▸ List.mem_cons_self x t)
    have ht : sep ∉ t := fun h => hmem (List.mem_cons_of_mem x h)
    simp only [List.cons_append, Crypto.splitOnCharAux, if_neg hx, List.append_eq,
      ih b (x :: acc) ht, List.reverse_cons, List.append_assoc, List.cons_append,
      List.nil_append]

/-- `'-'` never occurs in a rendered natural number. -/
theorem dash_not_mem_natToChars (n : ℕ) : '-' ∉ Crypto.natToChars n := by
  intro h
  have := natToChars_all_digit n '-' h
  simp at this

/-- Splitting a cache key on `'-'` recovers its two components. -/
theorem splitOnChar_key (w t : ℕ) :
    Crypto.splitOnChar '-' (Crypto.getWindowRangeCacheKey w t) =
      [Crypto.natToString w, Crypto.natToString t] := by
  have hdata : (Crypto.getWindowRangeCacheKey w t).data =
      Crypto.natToChars w ++ '-' :: Crypto.natToChars t := by
    show (Crypto.natToString w ++ "-" ++ Crypto.natToString t).data = _
    rw [String.data_append, String.data_append, List.append_assoc]
    rfl
  unfold Crypto.splitOnChar
  rw [hdata, splitOnCharAux_through '-' _ _ _ (dash_not_mem_natToChars w),
    splitOnCharAux_no_sep '-' _ _ (dash_not_mem_natToChars t)]
  simp only [List.reverse_nil, List.nil_append, List.map_cons, List.map_nil]
  rfl

/-- Cache keys are injective in the `(windowSize, firstOpenTime)` pair. -/
theorem getWindowRangeCacheKey_inj {w t w' t' : ℕ}
    (h : Crypto.getWindowRangeCacheKey w t = Crypto.getWindowRangeCacheKey w' t') :
    w = w' ∧ t = t' := by
  have hsplit := splitOnChar_key w t
  rw [h, splitOnChar_key w' t'] at hsplit
  have hw : Crypto.natToString w' = Crypto.natToString w := by
    injection hsplit with h1 _
  have ht : Crypto.natToString t' = Crypto.natToString t := by
    injection hsplit with _ h2
    injection h2 with h2 _
  constructor
  · have := parseIntDec_natToString w
    rw [← hw, parseIntDec_natToString w'] at this
    exact (Option.some.inj this).symm
  · have := parseIntDec_natToString t
    rw [← ht, parseIntDec_natToString t'] at this
    exact (Option.some.inj this).symm

/--
C6: after `pruneWindowRangeCache(cache, candles)`, an entry keyed by
`(windowSize, firstOpenTime)` remains exactly when it was present before
and some candle in the buffer has `openTime = firstOpenTime` (parsing
the generated key recovers `firstOpenTime`); with an empty buffer the
right-hand side is unsatisfiable and the cache is cleared entirely.
-/
theorem pruneWindowRangeCache_mem_iff (cache : Crypto.Cache)
    (candles : List Crypto.Candle) (w t : ℕ) :
    Crypto.getWindowRangeCacheKey w t ∈
        (Crypto.pruneWindowRangeCache cache candles).map Prod.fst ↔
      (Crypto.getWindowRangeCacheKey w t ∈ cache.map Prod.fst ∧
        t ∈ candles.map (·.openTime)) := by
  have hq : (match Crypto.parseIntDec
        ((Crypto.splitOnChar '-' (Crypto.getWindowRangeCacheKey w t)).getD 1 "") with
      | some o => (candles.map (·.openTime)).contains o
      | none => false) = (candles.map (·.openTime)).contains t := by
    rw [splitOnChar_key w t]
    simp only [List.getD_cons_succ, List.getD_cons_zero, parseIntDec_natToString t]
  by_cases h : candles.length = 0
  · rw [List.length_eq_zero] at h
    subst h
    simp [Crypto.pruneWindowRangeCache]
  · simp only [Crypto.pruneWindowRangeCache, h, if_false]
    constructor
    · intro hmem
      rcases List.mem_map.mp hmem with ⟨kv, hkv, hfst⟩
      rcases List.mem_filter.mp hkv with ⟨hin, hp⟩
      refine ⟨List.mem_map.mpr ⟨kv, hin, hfst⟩, ?_⟩
      rw [hfst] at hp
      rw [hq] at hp
      exact List.mem_of_elem_eq_true hp
    · rintro ⟨hmem, ht⟩
      rcases List.mem_map.mp hmem with ⟨kv, hin, hfst⟩
      refine List.mem_map.mpr ⟨kv, List.mem_filter.mpr ⟨hin, ?_⟩, hfst⟩
      rw [hfst, hq]
      simp only [List.contains, List.elem_eq_mem, decide_eq_true_eq]
      exact ht

/--
C7 counterexample: with the yellow and green notification thresholds both
`0`, a symbol whose price item carries no `maxRanges` array still gets
`yellowMet = false` and `greenMet = false` — the guard clauses run before
the threshold is consulted, so a zero threshold is not "always met" for
every input.
-/
theorem notificationMet_zero_threshold_counterexample :
    (Crypto.getNotificationMetPerSymbol
        [⟨"BTCUSDT", "100", none, some "99", none, none, none⟩]
        100 Crypto.TimeframeType.t15m 3 1 0 0 0 0 1).lookup "BTCUSDT" =
      some ⟨false, false⟩ := by decide

/--
C7 (amended): when the configured notification threshold for a color is
`0`, the met result for that color is `true`, provided the evaluation
reaches the threshold test: the timeframe's reference close is present
(and nonempty), a `WindowRange` for the highlighted column exists with
nonzero range, both prices parse, and neither volatility gate
suppresses the result.  The singleton-record conjunct ties the per-item
result to `getNotificationMetPerSymbol`'s output record.
-/
theorem notificationMet_zero_threshold_of_guards
    (item : Crypto.PriceItem) (multiplier : ℚ) (timeframe : Crypto.TimeframeType)
    (highlightedColumn : ℕ) (timeLeftFraction : ℚ)
    (yellowThreshold greenThreshold : ℤ)
    (maxVolatilityThreshold wmaVolatilityThreshold : ℚ) (mainTableScale : ℚ)
    (range : Crypto.MaxRange) (p c : ℚ)
    (hclose : Crypto.strOptionTruthy (Crypto.selectClose timeframe item) = true)
    (hrange : item.maxRanges.bind
      (List.find? (fun r => r.windowSize == highlightedColumn)) = some range)
    (hr0 : ¬ range.range = 0)
    (hp : Crypto.parseFloat? item.price = some p)
    (hc : Crypto.parseFloat? ((Crypto.selectClose timeframe item).getD "") = some c)
    (hgate1 : ¬ (maxVolatilityThreshold > 0 ∧ range.maxVolatility < maxVolatilityThreshold))
    (hgate2 : ¬ (wmaVolatilityThreshold > 0 ∧ range.wmaVolatility < wmaVolatilityThreshold)) :
    (yellowThreshold = 0 →
      (Crypto.notificationMetForItem item multiplier timeframe highlightedColumn
        timeLeftFraction yellowThreshold greenThreshold
        maxVolatilityThreshold wmaVolatilityThreshold mainTableScale).yellowMet = true) ∧
    (greenThreshold = 0 →
      (Crypto.notificationMetForItem item multiplier timeframe highlightedColumn
        timeLeftFraction yellowThreshold greenThreshold
        maxVolatilityThreshold wmaVolatilityThreshold mainTableScale).greenMet = true) ∧
    (Crypto.getNotificationMetPerSymbol [item] multiplier timeframe highlightedColumn
        timeLeftFraction yellowThreshold greenThreshold
        maxVolatilityThreshold wmaVolatilityThreshold mainTableScale).lookup item.symbol =
      some (Crypto.notificationMetForItem item multiplier timeframe highlightedColumn
        timeLeftFraction yellowThreshold greenThreshold
        maxVolatilityThreshold wmaVolatilityThreshold mainTableScale) := by
  have hsupMax : (decide (maxVolatilityThreshold > 0) &&
      decide (range.maxVolatility < maxVolatilityThreshold)) = false := by
    by_cases hA : maxVolatilityThreshold > 0 <;>
      by_cases hB : range.maxVolatility < maxVolatilityThreshold <;>
      simp_all
  have hsupWma : (decide (wmaVolatilityThreshold > 0) &&
      decide (range.wmaVolatility < wmaVolatilityThreshold)) = false := by
    by_cases hA : wmaVolatilityThreshold > 0 <;>
      by_cases hB : range.wmaVolatility < wmaVolatilityThreshold <;>
      simp_all
  have hbody : Crypto.notificationMetForItem item multiplier timeframe highlightedColumn
      timeLeftFraction yellowThreshold greenThreshold
      maxVolatilityThreshold wmaVolatilityThreshold mainTableScale =
      ⟨(if yellowThreshold = 0 then true
        else if yellowThreshold = Crypto.NOTIFY_THRESHOLD_AUTO then
          decide (|p - c| ≥ range.wma *
            (Crypto.getThresholdMultipliers range multiplier).1 * mainTableScale *
              timeLeftFraction)
        else decide ((Crypto.getFilledDots (|p - c|)
          (range.wma * (Crypto.getThresholdMultipliers range multiplier).1 *
            mainTableScale) : ℤ) ≥ yellowThreshold)),
      (if greenThreshold = 0 then true
        else if greenThreshold = Crypto.NOTIFY_THRESHOLD_AUTO then
          decide (|p - c| ≥ range.range *
            (Crypto.getThresholdMultipliers range multiplier).2 * mainTableScale *
              timeLeftFraction)
        else decide ((Crypto.getFilledDots (|p - c|)
          (range.range * (Crypto.getThresholdMultipliers range multiplier).2 *
            mainTableScale) : ℤ) ≥ greenThreshold))⟩ := by
    simp only [Crypto.notificationMetForItem]
    rw [hclose, hrange, hp, hc]
    simp only [Bool.not_true, Bool.false_eq_true, if_false, hr0, hsupMax, hsupWma,
      Bool.or_self, Bool.not_false, Bool.and_true]
  refine ⟨fun hy => ?_, fun hg => ?_, ?_⟩
  · rw [hbody, hy]
    simp
  · rw [hbody, hg]
    simp
  · simp only [Crypto.getNotificationMetPerSymbol, List.foldl_cons, List.foldl_nil,
      Crypto.recordSet, List.lookup_nil, Option.isSome_none, Bool.false_eq_true, if_false,
      List.nil_append]
    simp [List.lookup]

/-- Witness for the amended C7: a parsed price of 100 against a close of
99 with a present range (range 5) and disabled gates; with yellow
threshold `0` the yellow flag is met. -/
theorem notificationMet_zero_threshold_of_guards_witness :
    (Crypto.notificationMetForItem
        ⟨"BTCUSDT", "100", none, some "99", none, none,
          some [⟨3, 5, "105", "100", 2, 0, 0, 0, 0, 0⟩]⟩
        100 Crypto.TimeframeType.t15m 3 1 0 0 0 0 1).yellowMet = true :=
  (notificationMet_zero_threshold_of_guards
      ⟨"BTCUSDT", "100", none, some "99", none, none,
        some [⟨3, 5, "105", "100", 2, 0, 0, 0, 0, 0⟩]⟩
      100 Crypto.TimeframeType.t15m 3 1 0 0 0 0 1
      ⟨3, 5, "105", "100", 2, 0, 0, 0, 0, 0⟩ 100 99
      (by decide) (by decide) (by decide) (by decide) (by decide)
      (by decide) (by decide)).1 rfl

/-- A scan step over a zero-range window leaves the max tracker (and the
weighted range sum) untouched: the `>` comparison against the initial
maximum of `0` never fires. -/
theorem stepWindow_zero (candles : List Crypto.Candle) (w i : ℕ) (st : Crypto.ScanState)
    (hmr : st.maxRange = 0)
    (hzi : (Crypto.calculateWindowRange (Crypto.windowSlice candles w i)).range = 0) :
    (Crypto.stepWindow candles w (st, none) i).1.maxRange = st.maxRange ∧
    (Crypto.stepWindow candles w (st, none) i).1.maxHighStr = st.maxHighStr ∧
    (Crypto.stepWindow candles w (st, none) i).1.maxLowStr = st.maxLowStr ∧
    (Crypto.stepWindow candles w (st, none) i).1.weightedSum = st.weightedSum ∧
    (Crypto.stepWindow candles w (st, none) i).2 = none := by
  simp only [Crypto.stepWindow, hzi, hmr, gt_iff_lt, lt_irrefl, if_false, zero_mul,
    add_zero, and_true, and_self]

/-- Folding the scan over positions whose windows all have zero range
keeps the max tracker empty and the weighted range sum zero. -/
theorem foldl_stepWindow_zero (candles : List Crypto.Candle) (w : ℕ) :
    ∀ (is : List ℕ), (∀ i ∈ is, i + w ≤ candles.length) →
      (∀ i, i + w ≤ candles.length →
        (Crypto.calculateWindowRange (Crypto.windowSlice candles w i)).range = 0) →
      ∀ (st : Crypto.ScanState), st.maxRange = 0 → st.maxHighStr = "" →
        st.maxLowStr = "" → st.weightedSum = 0 →
        (is.foldl (Crypto.stepWindow candles w) (st, none)).1.maxRange = 0 ∧
        (is.foldl (Crypto.stepWindow candles w) (st, none)).1.maxHighStr = "" ∧
        (is.foldl (Crypto.stepWindow candles w) (st, none)).1.maxLowStr = "" ∧
        (is.foldl (Crypto.stepWindow candles w) (st, none)).1.weightedSum = 0 := by
  intro is
  induction is with
  | nil =>
    intro _ _ st h1 h2 h3 h4
    exact ⟨h1, h2, h3, h4⟩
  | cons i t ih =>
    intro hval hz st h1 h2 h3 h4
    have hi : i + w ≤ candles.length := hval i (List.mem_cons_self i t)
    have hstep := stepWindow_zero candles w i st h1 (hz i hi)
    have hpair : Crypto.stepWindow candles w (st, none) i =
        ((Crypto.stepWindow candles w (st, none) i).1, none) :=
      Prod.ext_iff.mpr ⟨rfl, hstep.2.2.2.2⟩
    rw [List.foldl_cons, hpair]
    exact ih (fun j hj => hval j (List.mem_cons_of_mem i hj)) hz _
      (hstep.1.trans h1) (hstep.2.1.trans h2) (hstep.2.2.1.trans h3)
      (hstep.2.2.2.1.trans h4)

/--
C10: when every window of size `windowSize` in a sufficiently long
buffer has range `0` (all parsed highs equal all parsed lows within each
window), `calculateMaxRangeForWindow` returns a record with `range = 0`,
`wma = 0` and empty `high`/`low` strings — the same shape as the
insufficient-data placeholder, because the maximum tracker only updates
on a strictly greater range than its initial `0` — and
`formatRangeDisplay` renders that record as the missing marker `"—"`.
-/
theorem all_zero_ranges_placeholder (candles : List Crypto.Candle) (w : ℕ)
    (hw1 : 1 ≤ w) (hwle : w ≤ candles.length)
    (hz : ∀ i, i + w ≤ candles.length →
      (Crypto.calculateWindowRange (Crypto.windowSlice candles w i)).range = 0) :
    ∃ r, (Crypto.calculateMaxRangeForWindow candles w none).1 = some r ∧
      r.range = 0 ∧ r.high = "" ∧ r.low = "" ∧ r.wma = 0 ∧
      ∀ (basePrice : Option String) (showHighLow : Bool) (multiplier : ℚ)
        (useVolatilityMultipliers : Bool),
        Crypto.formatRangeDisplay r basePrice showHighLow multiplier
          useVolatilityMultipliers = "—" := by
  have hnotlt : ¬ candles.length < w := by omega
  have hval : ∀ i ∈ List.range (candles.length - w + 1), i + w ≤ candles.length := by
    intro i hi
    have := List.mem_range.mp hi
    omega
  have hfold := foldl_stepWindow_zero candles w (List.range (candles.length - w + 1))
    hval hz Crypto.initState rfl rfl rfl rfl
  simp only [Crypto.calculateMaxRangeForWindow, hnotlt, if_false]
  refine ⟨_, rfl, ?_, ?_, ?_, ?_, ?_⟩
  · exact hfold.1
  · exact hfold.2.1
  · exact hfold.2.2.1
  · dsimp only
    rw [hfold.2.2.2]
    by_cases hws : ((List.range (candles.length - w + 1)).foldl
        (Crypto.stepWindow candles w) (Crypto.initState, none)).1.weightSum > 0 <;>
      simp [hws]
  · intro basePrice showHighLow multiplier useVolatilityMultipliers
    simp only [Crypto.formatRangeDisplay, hfold.2.2.1]
    simp

/-- Witness for C10: a two-candle buffer whose single two-candle window
has equal highs and lows (range `0`). -/
theorem all_zero_ranges_placeholder_witness :
    ∃ r, (Crypto.calculateMaxRangeForWindow
        [⟨0, "9", "5", "5", "9", "1"⟩, ⟨60000, "9", "5", "5", "9", "1"⟩] 2 none).1 =
        some r ∧
      r.range = 0 ∧ r.high = "" ∧ r.low = "" ∧ r.wma = 0 ∧
      ∀ (basePrice : Option String) (showHighLow : Bool) (multiplier : ℚ)
        (useVolatilityMultipliers : Bool),
        Crypto.formatRangeDisplay r basePrice showHighLow multiplier
          useVolatilityMultipliers = "—" :=
  all_zero_ranges_placeholder
    [⟨0, "9", "5", "5", "9", "1"⟩, ⟨60000, "9", "5", "5", "9", "1"⟩] 2
    (by decide) (by decide)
    (by
      intro i hi
      have : i = 0 := by simp at hi; omega
      subst this
      decide)

/--
C1 counterexample: on a buffer with a duplicated `openTime`, the cached
and uncached engines disagree.  Both candles open at time `0`; the
cached run memoises the first window's statistics under the key `"1-0"`
and replays them for the second window, so the weighted average differs
from the uncached run.
-/
theorem calculateMaxRanges_cache_counterexample :
    (Crypto.calculateMaxRanges
        [⟨0, "0", "5", "0", "0", "1"⟩, ⟨0, "0", "1", "0", "0", "1"⟩] 1 none).1 ≠
      (Crypto.calculateMaxRanges
        [⟨0, "0", "5", "0", "0", "1"⟩, ⟨0, "0", "1", "0", "0", "1"⟩] 1 (some [])).1 := by
  decide

/-- The first candle of a scanned window is the buffer element at the
window's position. -/
theorem candleAt_windowSlice_zero (candles : List Crypto.Candle) (w i : ℕ)
    (hw : 1 ≤ w) (hi : i < candles.length) :
    Crypto.candleAt (Crypto.windowSlice candles w i) 0 = candles[i] := by
  unfold Crypto.candleAt Crypto.windowSlice
  rw [List.getD_eq_getElem?_getD, List.getElem?_take, if_pos (by omega),
    List.getElem?_drop]
  have h0 : i + 0 < candles.length := by omega
  rw [List.getElem?_eq_getElem h0]
  rfl

/-- In a buffer with duplicate-free open times, the open time determines
the buffer position. -/
theorem openTime_index_inj (candles : List Crypto.Candle)
    (hnd : (candles.map (·.openTime)).Nodup) (i j : ℕ) (hi : i < candles.length)
    (hj : j < candles.length)
    (h : candles[i].openTime = candles[j].openTime) : i = j := by
  have hmi : i < (candles.map (·.openTime)).length := by simpa using hi
  have hmj : j < (candles.map (·.openTime)).length := by simpa using hj
  have hm : (candles.map (·.openTime))[i] = (candles.map (·.openTime))[j] := by
    rw [List.getElem_map, List.getElem_map]
    exact h
  exact (List.Nodup.getElem_inj_iff hnd).mp hm

/-- The empty cache is coherent with every buffer. -/
theorem cacheCoherent_nil (candles : List Crypto.Candle) :
    Crypto.CacheCoherent [] candles := by
  intro w i _ _ v hv
  simp at hv

/-- Inserting a window's own statistics preserves cache coherence when
the buffer's open times are duplicate-free. -/
theorem cacheCoherent_insert (candles : List Crypto.Candle)
    (hnd : (candles.map (·.openTime)).Nodup) (m : Crypto.Cache)
    (hcoh : Crypto.CacheCoherent m candles) (w i : ℕ) (hw : 1 ≤ w)
    (hi : i + w ≤ candles.length) :
    Crypto.CacheCoherent (m ++ [(Crypto.getWindowRangeCacheKey w
        (Crypto.candleAt (Crypto.windowSlice candles w i) 0).openTime,
      Crypto.calculateWindowRange (Crypto.windowSlice candles w i))]) candles := by
  intro w' i' hw' hi' v hv
  rw [List.lookup_append] at hv
  rcases hm : List.lookup (Crypto.getWindowRangeCacheKey w'
      (Crypto.candleAt (Crypto.windowSlice candles w' i') 0).openTime) m with _ | u
  · rw [hm, Option.none_or, List.lookup_cons] at hv
    rcases hbeq : (Crypto.getWindowRangeCacheKey w'
        (Crypto.candleAt (Crypto.windowSlice candles w' i') 0).openTime ==
      Crypto.getWindowRangeCacheKey w
        (Crypto.candleAt (Crypto.windowSlice candles w i) 0).openTime) with _ | _
    · rw [hbeq] at hv
      simp at hv
    · rw [hbeq] at hv
      simp only [Option.some.injEq] at hv
      have hkey := eq_of_beq hbeq
      obtain ⟨hww, htt⟩ := getWindowRangeCacheKey_inj hkey
      subst hww
      have hii : i' = i := by
        rw [candleAt_windowSlice_zero candles w' i' hw' (by omega),
          candleAt_windowSlice_zero candles w' i hw (by omega)] at htt
        exact openTime_index_inj candles hnd i' i (by omega) (by omega) htt
      subst hii
      exact hv.symm
  · rw [hm, Option.or_some] at hv
    simp only [Option.some.injEq] at hv
    subst hv
    exact hcoh w' i' hw' hi' u hm

/-- The scan step never installs a cache when run without one. -/
theorem stepWindow_none_snd (candles : List Crypto.Candle) (w : ℕ)
    (st : Crypto.ScanState) (i : ℕ) :
    (Crypto.stepWindow candles w (st, none) i).2 = none := by
  simp only [Crypto.stepWindow]

/-- One scan step through a coherent cache: the accumulator update is
the one the uncached scan performs, and the returned cache is again
coherent. -/
theorem stepWindow_coherent (candles : List Crypto.Candle) (w : ℕ) (hw : 1 ≤ w)
    (hnd : (candles.map (·.openTime)).Nodup) (i : ℕ) (hi : i + w ≤ candles.length)
    (st : Crypto.ScanState) (m : Crypto.Cache)
    (hcoh : Crypto.CacheCoherent m candles) :
    (Crypto.stepWindow candles w (st, some m) i).1 =
      (Crypto.stepWindow candles w (st, none) i).1 ∧
    ∃ m', (Crypto.stepWindow candles w (st, some m) i).2 = some m' ∧
      Crypto.CacheCoherent m' candles := by
  rcases hlk : List.lookup (Crypto.getWindowRangeCacheKey w
      (Crypto.candleAt (Crypto.windowSlice candles w i) 0).openTime) m with _ | v
  · have hset : Crypto.cacheSet m
        (Crypto.getWindowRangeCacheKey w
          (Crypto.candleAt (Crypto.windowSlice candles w i) 0).openTime)
        (Crypto.calculateWindowRange (Crypto.windowSlice candles w i)) =
        m ++ [(Crypto.getWindowRangeCacheKey w
          (Crypto.candleAt (Crypto.windowSlice candles w i) 0).openTime,
          Crypto.calculateWindowRange (Crypto.windowSlice candles w i))] := by
      simp only [Crypto.cacheSet, hlk, Option.isSome_none, Bool.false_eq_true, if_false]
    constructor
    · simp only [Crypto.stepWindow, hlk]
    · refine ⟨_, ?_, cacheCoherent_insert candles hnd m hcoh w i hw hi⟩
      simp only [Crypto.stepWindow, hlk, hset]
  · have hv : v = Crypto.calculateWindowRange (Crypto.windowSlice candles w i) :=
      hcoh w i hw hi v hlk
    constructor
    · simp only [Crypto.stepWindow, hlk, hv]
    · refine ⟨m, ?_, hcoh⟩
      simp only [Crypto.stepWindow, hlk]

/-- An uncached scan's fold never acquires a cache. -/
theorem foldl_stepWindow_none_snd (candles : List Crypto.Candle) (w : ℕ) :
    ∀ (is : List ℕ) (st : Crypto.ScanState),
      (is.foldl (Crypto.stepWindow candles w) (st, none)).2 = none := by
  intro is
  induction is with
  | nil => intro st; rfl
  | cons i t ih =>
    intro st
    rw [List.foldl_cons]
    have hpair : Crypto.stepWindow candles w (st, none) i =
        ((Crypto.stepWindow candles w (st, none) i).1, none) :=
      Prod.ext_iff.mpr ⟨rfl, stepWindow_none_snd candles w st i⟩
    rw [hpair]
    exact ih _

/-- Folding the scan through a coherent cache produces the same
accumulator as the uncached fold, and a coherent final cache. -/
theorem foldl_stepWindow_coherent (candles : List Crypto.Candle) (w : ℕ) (hw : 1 ≤ w)
    (hnd : (candles.map (·.openTime)).Nodup) :
    ∀ (is : List ℕ), (∀ i ∈ is, i + w ≤ candles.length) →
      ∀ (st : Crypto.ScanState) (m : Crypto.Cache), Crypto.CacheCoherent m candles →
        (is.foldl (Crypto.stepWindow candles w) (st, some m)).1 =
          (is.foldl (Crypto.stepWindow candles w) (st, none)).1 ∧
        ∃ m', (is.foldl (Crypto.stepWindow candles w) (st, some m)).2 = some m' ∧
          Crypto.CacheCoherent m' candles := by
  intro is
  induction is with
  | nil =>
    intro _ st m hcoh
    exact ⟨rfl, m, rfl, hcoh⟩
  | cons i t ih =>
    intro hval st m hcoh
    have hi : i + w ≤ candles.length := hval i (List.mem_cons_self i t)
    obtain ⟨heq, m1, hm1, hcoh1⟩ := stepWindow_coherent candles w hw hnd i hi st m hcoh
    have hpairS : Crypto.stepWindow candles w (st, some m) i =
        ((Crypto.stepWindow candles w (st, none) i).1, some m1) :=
      Prod.ext_iff.mpr ⟨heq, hm1⟩
    have hpairN : Crypto.stepWindow candles w (st, none) i =
        ((Crypto.stepWindow candles w (st, none) i).1, none) :=
      Prod.ext_iff.mpr ⟨rfl, stepWindow_none_snd candles w st i⟩
    rw [List.foldl_cons, List.foldl_cons, hpairS, hpairN]
    exact ih (fun j hj => hval j (List.mem_cons_of_mem i hj)) _ m1 hcoh1

/-- An uncached `calculateMaxRangeForWindow` returns no cache. -/
theorem calculateMaxRangeForWindow_none_snd (candles : List Crypto.Candle) (w : ℕ) :
    (Crypto.calculateMaxRangeForWindow candles w none).2 = none := by
  by_cases hlt : candles.length < w
  · simp only [Crypto.calculateMaxRangeForWindow, hlt, if_true]
  · simp only [Crypto.calculateMaxRangeForWindow, hlt, if_false]
    exact foldl_stepWindow_none_snd candles w _ _

/-- `calculateMaxRangeForWindow` through a coherent cache: same result
as without a cache, and the returned cache is coherent. -/
theorem calculateMaxRangeForWindow_coherent (candles : List Crypto.Candle) (w : ℕ)
    (hw : 1 ≤ w) (hnd : (candles.map (·.openTime)).Nodup) (m : Crypto.Cache)
    (hcoh : Crypto.CacheCoherent m candles) :
    (Crypto.calculateMaxRangeForWindow candles w (some m)).1 =
      (Crypto.calculateMaxRangeForWindow candles w none).1 ∧
    ∃ m', (Crypto.calculateMaxRangeForWindow candles w (some m)).2 = some m' ∧
      Crypto.CacheCoherent m' candles := by
  by_cases hlt : candles.length < w
  · constructor
    · simp only [Crypto.calculateMaxRangeForWindow, hlt, if_true]
    · exact ⟨m, by simp only [Crypto.calculateMaxRangeForWindow, hlt, if_true], hcoh⟩
  · have hval : ∀ i ∈ List.range (candles.length - w + 1), i + w ≤ candles.length := by
      intro i hi
      have := List.mem_range.mp hi
      omega
    obtain ⟨h1, m', hm', hcoh'⟩ := foldl_stepWindow_coherent candles w hw hnd
      (List.range (candles.length - w + 1)) hval Crypto.initState m hcoh
    constructor
    · simp only [Crypto.calculateMaxRangeForWindow, hlt, if_false, h1]
    · exact ⟨m', by simp only [Crypto.calculateMaxRangeForWindow, hlt, if_false, hm'], hcoh'⟩

/-- The window-size countdown through a coherent cache: same result list
as without a cache, and a coherent final cache. -/
theorem calcMaxRangesAux_coherent (candles : List Crypto.Candle)
    (hnd : (candles.map (·.openTime)).Nodup) :
    ∀ (n : ℕ) (m : Crypto.Cache), Crypto.CacheCoherent m candles →
      (Crypto.calcMaxRangesAux candles n (some m)).1 =
        (Crypto.calcMaxRangesAux candles n none).1 ∧
      ∃ m', (Crypto.calcMaxRangesAux candles n (some m)).2 = some m' ∧
        Crypto.CacheCoherent m' candles := by
  intro n
  induction n with
  | zero =>
    intro m hcoh
    exact ⟨rfl, m, rfl, hcoh⟩
  | succ n ih =>
    intro m hcoh
    obtain ⟨hhead, m1, hm1, hcoh1⟩ :=
      calculateMaxRangeForWindow_coherent candles (n + 1) (by omega) hnd m hcoh
    obtain ⟨hrest, m2, hm2, hcoh2⟩ := ih m1 hcoh1
    have hpairS : Crypto.calculateMaxRangeForWindow candles (n + 1) (some m) =
        ((Crypto.calculateMaxRangeForWindow candles (n + 1) none).1, some m1) :=
      Prod.ext_iff.mpr ⟨hhead, hm1⟩
    have hpairN : Crypto.calculateMaxRangeForWindow candles (n + 1) none =
        ((Crypto.calculateMaxRangeForWindow candles (n + 1) none).1, none) :=
      Prod.ext_iff.mpr ⟨rfl, calculateMaxRangeForWindow_none_snd candles (n + 1)⟩
    constructor
    · show (Crypto.calcMaxRangesAux candles (n + 1) (some m)).1 =
        (Crypto.calcMaxRangesAux candles (n + 1) none).1
      rw [Crypto.calcMaxRangesAux, Crypto.calcMaxRangesAux, hpairS, hpairN]
      simp only [hrest]
    · refine ⟨m2, ?_, hcoh2⟩
      show (Crypto.calcMaxRangesAux candles (n + 1) (some m)).2 = some m2
      rw [Crypto.calcMaxRangesAux, hpairS]
      simpa using hm2

/--
C1 (amended): for any candle buffer whose open times are pairwise
distinct — the invariant every buffer maintained by the merge loop
satisfies — `calculateMaxRanges` produces the same `WindowRange` list
with no cache, with an empty (cold) cache, and with the (warm) cache
left behind by a previous run over the same buffer.  (Without the
distinctness assumption the cached runs can collapse two window
positions onto one key: see the counterexample.)
-/
theorem calculateMaxRanges_cache_equivalence (candles : List Crypto.Candle)
    (maxWindowSize : ℕ) (hnd : (candles.map (·.openTime)).Nodup) :
    (Crypto.calculateMaxRanges candles maxWindowSize (some [])).1 =
      (Crypto.calculateMaxRanges candles maxWindowSize none).1 ∧
    (Crypto.calculateMaxRanges candles maxWindowSize
        (Crypto.calculateMaxRanges candles maxWindowSize (some [])).2).1 =
      (Crypto.calculateMaxRanges candles maxWindowSize none).1 := by
  obtain ⟨hcold, m', hm', hcoh'⟩ :=
    calcMaxRangesAux_coherent candles hnd maxWindowSize [] (cacheCoherent_nil candles)
  refine ⟨hcold, ?_⟩
  show (Crypto.calcMaxRangesAux candles maxWindowSize
      (Crypto.calcMaxRangesAux candles maxWindowSize (some [])).2).1 =
    (Crypto.calcMaxRangesAux candles maxWindowSize none).1
  rw [hm']
  exact (calcMaxRangesAux_coherent candles hnd maxWindowSize m' hcoh').1

/-- Witness for the amended C1 on the two-candle buffer with distinct
open times. -/
theorem calculateMaxRanges_cache_equivalence_witness :
    (Crypto.calculateMaxRanges
        [⟨0, "9", "10", "8", "9.5", "1"⟩, ⟨60000, "9.5", "12", "9", "11", "1"⟩]
        2 (some [])).1 =
      (Crypto.calculateMaxRanges
        [⟨0, "9", "10", "8", "9.5", "1"⟩, ⟨60000, "9.5", "12", "9", "11", "1"⟩]
        2 none).1 ∧
    (Crypto.calculateMaxRanges
        [⟨0, "9", "10", "8", "9.5", "1"⟩, ⟨60000, "9.5", "12", "9", "11", "1"⟩]
        2 (Crypto.calculateMaxRanges
          [⟨0, "9", "10", "8", "9.5", "1"⟩, ⟨60000, "9.5", "12", "9", "11", "1"⟩]
          2 (some [])).2).1 =
      (Crypto.calculateMaxRanges
        [⟨0, "9", "10", "8", "9.5", "1"⟩, ⟨60000, "9.5", "12", "9", "11", "1"⟩]
        2 none).1 :=
  calculateMaxRanges_cache_equivalence
    [⟨0, "9", "10", "8", "9.5", "1"⟩, ⟨60000, "9.5", "12", "9", "11", "1"⟩]
    2 (by decide)

end RatReducible
